import Mathlib

/-!
Shallow embedding of `run.py` (the @plutor_wifi speed-test bot, latest revision)
and verification of its specification.

Modelling conventions:
- Numeric sample values (Mbps, ping) are rationals (`ℚ`); Python `None` inside a
  result tuple is `Option ℚ`.
- Timestamps are integer epoch seconds (`ℤ`); `NOW` is passed explicitly.
- Lexical tokens of an external program's stdout are either numeric (they would
  parse with Python `float`) or non-numeric text.
- Fallible Python code (uncaught exceptions) is embedded as `Except String`;
  the string names the Python exception that would be raised.
-/

/-- A whitespace-separated token of an external program's stdout. -/
inductive Tok where
  | num (q : ℚ)
  | word (s : String)
deriving DecidableEq

/-- Python `float(tok)`: succeeds exactly on numeric tokens. -/
def floatOfTok : Tok → Option ℚ
  | .num q => some q
  | .word _ => none

/-- One iteration of the line loop of `run_ookla` (run.py lines 110-120).
The enclosing try/except swallows both a tuple-unpack failure (a line that is
not exactly three tokens) and a `float` parse failure, leaving the
`(down, up, ping)` state unchanged. -/
def ooklaLine (st : ℚ × ℚ × ℚ) (line : List Tok) : ℚ × ℚ × ℚ :=
  match line with
  | [ty, val, _unit] =>
    if ty = Tok.word "Download:" then
      match floatOfTok val with
      | some v => (v, st.2.1, st.2.2)
      | none => st
    else if ty = Tok.word "Upload:" then
      match floatOfTok val with
      | some v => (st.1, v, st.2.2)
      | none => st
    else if ty = Tok.word "Ping:" then
      match floatOfTok val with
      | some v => (st.1, st.2.1, v)
      | none => st
    else st
  | _ => st

/-- `run_ookla` (run.py lines 97-121): `None` on a non-zero exit code, else the
fold of the line loop over the `(-1, -1, -1)` initial state. -/
def run_ookla (returncode : ℤ) (lines : List (List Tok)) : Option (ℚ × ℚ × ℚ) :=
  if returncode ≠ 0 then none
  else some (lines.foldl ooklaLine (-1, -1, -1))

/-- A line contributes nothing in `run_ookla`: it is not a three-token
`Download:`/`Upload:`/`Ping:` line whose value token is numeric. -/
def ooklaNoParse (line : List Tok) : Bool :=
  match line with
  | [ty, val, _unit] =>
    !((ty = Tok.word "Download:" || ty = Tok.word "Upload:" || ty = Tok.word "Ping:")
       && (floatOfTok val).isSome)
  | _ => true

/-- Outcome of one `fast-cli` invocation: its exit code, whether the raw stdout
contains the text `NaN bps`, and the whitespace-split token list. -/
structure Attempt where
  returncode : ℤ
  hasNaN : Bool
  toks : List Tok
deriving DecidableEq

/-- The attempt passes both checks of the `run_fastcom` loop body. -/
def fastcomGood (a : Attempt) : Bool :=
  a.returncode = 0 && !a.hasNaN

/-- The parse step of `run_fastcom` (run.py lines 141-143): `result[0]` raises
`IndexError` on empty output and `float(val)` raises `ValueError` on a
non-numeric first token. -/
def fastcomParse (a : Attempt) : Except String (Option (ℚ × Option ℚ × Option ℚ)) :=
  match a.toks with
  | [] => .error "IndexError"
  | v :: _ =>
    match floatOfTok v with
    | none => .error "ValueError"
    | some q => .ok (some (q, none, none))

/-- Python `result[0]` then `float`: the first token's numeric value, if any. -/
def headFloat (a : Attempt) : Option ℚ :=
  a.toks.head?.bind floatOfTok

/-- The retry loop of `run_fastcom` (run.py lines 129-144). `f i` is the
outcome of the `i`-th subprocess invocation; `tries` counts down from 5. -/
def fastcomLoop (f : ℕ → Attempt) (i : ℕ) : ℕ → Except String (Option (ℚ × Option ℚ × Option ℚ))
  | 0 => .ok none
  | t + 1 =>
    let cp := f i
    if cp.returncode ≠ 0 then fastcomLoop f (i + 1) t
    else if cp.hasNaN then fastcomLoop f (i + 1) t
    else fastcomParse cp

/-- `run_fastcom` (run.py lines 123-144). -/
def run_fastcom (f : ℕ → Attempt) : Except String (Option (ℚ × Option ℚ × Option ℚ)) :=
  fastcomLoop f 0 5

/-- Number of subprocess invocations the `run_fastcom` loop performs. -/
def fastcomCalls (f : ℕ → Attempt) (i : ℕ) : ℕ → ℕ
  | 0 => 0
  | t + 1 =>
    let cp := f i
    if cp.returncode ≠ 0 then 1 + fastcomCalls f (i + 1) t
    else if cp.hasNaN then 1 + fastcomCalls f (i + 1) t
    else 1

/-- Invocation count of `run_fastcom`. -/
def run_fastcom_calls (f : ℕ → Attempt) : ℕ :=
  fastcomCalls f 0 5

/-- The per-run `data` mapping: test name to result tuple, each key optional.
Tuple components mirror the Python tuples: speedtest `(down, up, ping)`,
mlab `(down, up, minrtt, retrans)`, fastcom and chromedl `(down, None, None)`. -/
structure RunData where
  speedtest : Option (Option ℚ × Option ℚ × Option ℚ)
  mlab : Option (Option ℚ × Option ℚ × Option ℚ × Option ℚ)
  fastcom : Option (Option ℚ × Option ℚ × Option ℚ)
  chromedl : Option (Option ℚ × Option ℚ × Option ℚ)
deriving DecidableEq

/-- Python truthiness of the `rv` dict built by `run_speedtests`. -/
def RunData.nonempty (d : RunData) : Bool :=
  d.speedtest.isSome || d.fastcom.isSome || d.mlab.isSome || d.chromedl.isSome

/-- A stored record: the row shape inserted by `save_data` (run.py line 185). -/
structure DbRec where
  data : RunData
  tweeted : Bool
  timestamp : ℤ
deriving DecidableEq

/-- `tweet_due` (run.py lines 295-299), scanning the loaded 24-hour history. -/
def tweet_due : List DbRec → ℤ → ℤ → Bool
  | [], _, _ => true
  | r :: rest, now, max_age_secs =>
    if r.tweeted && decide (r.timestamp > now - max_age_secs) then false
    else tweet_due rest now max_age_secs

/-- `should_mlabndt` (run.py lines 166-170). -/
def should_mlabndt : List DbRec → ℤ → ℤ → Bool
  | [], _, _ => true
  | r :: rest, now, max_age_secs =>
    if r.data.mlab.isSome && decide (r.timestamp > now - max_age_secs) then false
    else should_mlabndt rest now max_age_secs

/-- Outcome of one `ndt7-client` invocation, json fields already extracted. -/
structure MlabOutput where
  returncode : ℤ
  download : ℚ
  upload : ℚ
  minrtt : ℚ
  retrans : ℚ

/-- `run_mlabndt` (run.py lines 146-164). The second component records whether
the external client was invoked (false exactly when the test is skipped). -/
def run_mlabndt (hist : List DbRec) (now : ℤ) (ext : MlabOutput) :
    Option (ℚ × ℚ × ℚ × ℚ) × Bool :=
  if !should_mlabndt hist now (60 * 60) then (none, false)
  else if ext.returncode ≠ 0 then (none, true)
  else (some (ext.download, ext.upload, ext.minrtt, ext.retrans), true)

/-- `save_data` (run.py lines 184-187): append one row to the store. -/
def save_data (db : List DbRec) (d : RunData) (do_tweet : Bool) (now : ℤ) : List DbRec :=
  db ++ [{ data := d, tweeted := do_tweet, timestamp := now }]

/-- The per-run series built by the history loop of `generate_graph`
(run.py lines 193-234). Indices as in the source: ys0-ys3 the speedtest, mlab,
fastcom, chromedl download series, ys4-ys5 the speedtest and mlab upload
series, (xs6, ys6) the per-run mean download, (xs7, ys7) the per-run mean
upload. The xs lists for ys0-ys5 feed only the plot and are omitted. -/
structure Collected where
  ys0 : List (Option ℚ)
  ys1 : List (Option ℚ)
  ys2 : List (Option ℚ)
  ys3 : List (Option ℚ)
  ys4 : List (Option ℚ)
  ys5 : List (Option ℚ)
  xs6 : List ℤ
  ys6 : List ℚ
  xs7 : List ℤ
  ys7 : List ℚ
deriving DecidableEq

/-- The empty series. -/
def emptyCollected : Collected :=
  { ys0 := [], ys1 := [], ys2 := [], ys3 := [], ys4 := [], ys5 := [],
    xs6 := [], ys6 := [], xs7 := [], ys7 := [] }

/-- Running totals of one history-loop iteration. -/
structure Tally where
  totaldown : ℚ
  totalup : ℚ
  downs : ℕ
  ups : ℕ

/-- Python `total += v`: raises `TypeError` when the stored value is `None`. -/
def addSample (total : ℚ) : Option ℚ → Except String ℚ
  | none => .error "TypeError"
  | some v => .ok (total + v)

/-- The speedtest block of the history loop (run.py lines 201-209). -/
def doSpeedtest (t : Tally) (c : Collected)
    (o : Option (Option ℚ × Option ℚ × Option ℚ)) : Except String (Tally × Collected) :=
  match o with
  | none => .ok (t, c)
  | some st => do
    let td ← addSample t.totaldown st.1
    let c := { c with ys0 := c.ys0 ++ [st.1] }
    let tu ← addSample t.totalup st.2.1
    let c := { c with ys4 := c.ys4 ++ [st.2.1] }
    .ok ({ t with totaldown := td, downs := t.downs + 1,
                  totalup := tu, ups := t.ups + 1 }, c)

/-- The mlab block of the history loop (run.py lines 210-218). -/
def doMlab (t : Tally) (c : Collected)
    (o : Option (Option ℚ × Option ℚ × Option ℚ × Option ℚ)) : Except String (Tally × Collected) :=
  match o with
  | none => .ok (t, c)
  | some ml => do
    let td ← addSample t.totaldown ml.1
    let c := { c with ys1 := c.ys1 ++ [ml.1] }
    let tu ← addSample t.totalup ml.2.1
    let c := { c with ys5 := c.ys5 ++ [ml.2.1] }
    .ok ({ t with totaldown := td, downs := t.downs + 1,
                  totalup := tu, ups := t.ups + 1 }, c)

/-- The fastcom block of the history loop (run.py lines 219-223). -/
def doFastcom (t : Tally) (c : Collected)
    (o : Option (Option ℚ × Option ℚ × Option ℚ)) : Except String (Tally × Collected) :=
  match o with
  | none => .ok (t, c)
  | some ft => do
    let td ← addSample t.totaldown ft.1
    .ok ({ t with totaldown := td, downs := t.downs + 1 },
         { c with ys2 := c.ys2 ++ [ft.1] })

/-- The chromedl block of the history loop (run.py lines 224-228). -/
def doChromedl (t : Tally) (c : Collected)
    (o : Option (Option ℚ × Option ℚ × Option ℚ)) : Except String (Tally × Collected) :=
  match o with
  | none => .ok (t, c)
  | some cd => do
    let td ← addSample t.totaldown cd.1
    .ok ({ t with totaldown := td, downs := t.downs + 1 },
         { c with ys3 := c.ys3 ++ [cd.1] })

/-- One iteration of the history loop of `generate_graph`
(run.py lines 195-234). -/
def collectRec (c : Collected) (r : DbRec) : Except String Collected := do
  let (t, c) ← doSpeedtest { totaldown := 0, totalup := 0, downs := 0, ups := 0 } c r.data.speedtest
  let (t, c) ← doMlab t c r.data.mlab
  let (t, c) ← doFastcom t c r.data.fastcom
  let (t, c) ← doChromedl t c r.data.chromedl
  let c := if t.downs ≠ 0 then
      { c with ys6 := c.ys6 ++ [t.totaldown / (t.downs : ℚ)], xs6 := c.xs6 ++ [r.timestamp] }
    else c
  let c := if t.ups ≠ 0 then
      { c with ys7 := c.ys7 ++ [t.totalup / (t.ups : ℚ)], xs7 := c.xs7 ++ [r.timestamp] }
    else c
  .ok c

/-- The whole history loop of `generate_graph`. -/
def collectHist (hist : List DbRec) : Except String Collected :=
  hist.foldlM collectRec emptyCollected

/-- Three hours in seconds, the `datetime.timedelta(hours=3)` window width. -/
def hours3 : ℤ := 3 * 60 * 60

/-- The running-average loop of `generate_graph` (run.py lines 236-245):
append the current point to the window, drop every entry that is 3 hours old
or older (the comparison is strict `<`), and replace the sample with the
window mean. -/
def winAvgGo (win : List (ℤ × ℚ)) : List (ℤ × ℚ) → List ℚ
  | [] => []
  | (x, y) :: rest =>
    let win2 := (win ++ [(x, y)]).filter (fun e => decide (x - e.1 < hours3))
    ((win2.map (fun e => e.2)).sum / (win2.length : ℚ)) :: winAvgGo win2 rest

/-- The windowed-average pass applied to one `(xs, ys)` series. -/
def runningAvg (xs : List ℤ) (ys : List ℚ) : List ℚ :=
  winAvgGo [] (xs.zip ys)

/-- Python `filter(None, l)` over sample values: keeps truthy values only,
dropping both `None` and `0`. -/
def truthyVals (l : List (Option ℚ)) : List ℚ :=
  l.filterMap (fun o => match o with
    | none => none
    | some v => if v = 0 then none else some v)

/-- Insertion into a sorted list of rationals. -/
def insertSorted (x : ℚ) : List ℚ → List ℚ
  | [] => [x]
  | y :: ys => if x ≤ y then x :: y :: ys else y :: insertSorted x ys

/-- Insertion sort of rationals, standing in for Python's `sorted`. -/
def sortQ : List ℚ → List ℚ
  | [] => []
  | x :: xs => insertSorted x (sortQ xs)

/-- `statistics.median`: sort; `none` models the `StatisticsError` raised on
empty data; the middle element at odd length, the mean of the two middle
elements at even length. -/
def median (l : List ℚ) : Option ℚ :=
  let s := sortQ l
  let n := s.length
  if n = 0 then none
  else if n % 2 = 1 then s[n / 2]?
  else do
    let a ← s[n / 2 - 1]?
    let b ← s[n / 2]?
    pure ((a + b) / 2)

/-- Lift the `StatisticsError` of `median` into the exception monad. -/
def orRaise (e : String) : Option ℚ → Except String ℚ
  | none => .error e
  | some v => .ok v

/-- `generate_graph` (run.py lines 189-286), plotting elided: the history
loop, the windowed-average pass over the aggregate series (which feeds only
the plot), and the two medians `med_down` (from ys0+ys1+ys2) and `med_up`
(from ys3+ys4) that are returned. -/
def generate_graph (hist : List DbRec) : Except String (ℚ × ℚ) := do
  let c ← collectHist hist
  let _avgdown := runningAvg c.xs6 c.ys6
  let _avgup := runningAvg c.xs7 c.ys7
  let med_down ← orRaise "StatisticsError" (median (truthyVals (c.ys0 ++ c.ys1 ++ c.ys2)))
  let med_up ← orRaise "StatisticsError" (median (truthyVals (c.ys3 ++ c.ys4)))
  .ok (med_down, med_up)

/-- The command-line flags (run.py lines 25-31). -/
structure Args where
  force_tweet : Bool
  only_test : Bool
  skip_test : Bool
  dry_run : Bool

/-- The `do_tweet` condition of `main` (run.py line 307). -/
def do_tweet (args : Args) (hist : List DbRec) (now : ℤ) : Bool :=
  (args.force_tweet || tweet_due hist now (8 * 60 * 60)) && !args.only_test

/-- The externally visible actions `main` can take, in order. -/
inductive MainAct where
  | runTests
  | insertRecord (r : DbRec)
  | generateChart
  | post
deriving DecidableEq

/-- The action sequence of `main` (run.py lines 302-319): optionally run the
tests and save one row, then either generate the chart only (`--dry_run`),
tweet the history (which generates the chart and posts), or skip. -/
def main_trace (args : Args) (hist : List DbRec) (testData : RunData) (now : ℤ) : List MainAct :=
  (if !args.skip_test then
    [MainAct.runTests] ++
      (if testData.nonempty then
        [MainAct.insertRecord { data := testData, tweeted := do_tweet args hist now, timestamp := now }]
      else [])
  else []) ++
  (if args.dry_run then [MainAct.generateChart]
   else if do_tweet args hist now then [MainAct.generateChart, MainAct.post]
   else [])

/-- The records a trace inserts into the store. -/
def insertedRecs (acts : List MainAct) : List DbRec :=
  acts.filterMap (fun a => match a with
    | MainAct.insertRecord r => some r
    | _ => none)

/-- The store contents after one run of `main` against store `db`. -/
def main_db (args : Args) (db hist : List DbRec) (testData : RunData) (now : ℤ) : List DbRec :=
  db ++ insertedRecs (main_trace args hist testData now)

/-- Modelled from the spec: the download samples of one record across all four
test sources, in source order. -/
def recDowns (r : DbRec) : List (Option ℚ) :=
  (match r.data.speedtest with | some st => [st.1] | none => []) ++
  (match r.data.mlab with | some ml => [ml.1] | none => []) ++
  (match r.data.fastcom with | some ft => [ft.1] | none => []) ++
  (match r.data.chromedl with | some cd => [cd.1] | none => [])

/-- Modelled from the spec: the upload samples of one record across the two
sources that report uploads (speedtest, mlab). -/
def recUps (r : DbRec) : List (Option ℚ) :=
  (match r.data.speedtest with | some st => [st.2.1] | none => []) ++
  (match r.data.mlab with | some ml => [ml.2.1] | none => [])

/-- Modelled from the spec: the median of all non-null download samples across
all four sources over the history. -/
def spec_med_down (hist : List DbRec) : Option ℚ :=
  median (((hist.map recDowns).flatten).filterMap id)

/-- Modelled from the spec: the median of all non-null upload samples across
the sources that report uploads. -/
def spec_med_up (hist : List DbRec) : Option ℚ :=
  median (((hist.map recUps).flatten).filterMap id)

/-- Mean of the sample components of a window. -/
def meanOf (l : List (ℤ × ℚ)) : ℚ :=
  (l.map (fun e => e.2)).sum / (l.length : ℚ)

/-- The trailing window at position `x` with the strict 3-hour boundary. -/
def trailWin (pts : List (ℤ × ℚ)) (x : ℤ) : List (ℤ × ℚ) :=
  pts.filter (fun e => decide (x - e.1 < hours3))

/-- The trailing window at position `x` with the boundary included, as the
spec sentence reads. -/
def trailWinIncl (pts : List (ℤ × ℚ)) (x : ℤ) : List (ℤ × ℚ) :=
  pts.filter (fun e => decide (x - e.1 ≤ hours3))

/-- Per-point independent trailing-window means, strict boundary:
at each point, the mean of all trailing samples less than 3 hours older. -/
def specAvgGo (seen : List (ℤ × ℚ)) : List (ℤ × ℚ) → List ℚ
  | [] => []
  | (x, y) :: rest =>
    meanOf (trailWin (seen ++ [(x, y)]) x) :: specAvgGo (seen ++ [(x, y)]) rest

/-- Per-point independent trailing-window means, strict boundary. -/
def specRunningAvg (xs : List ℤ) (ys : List ℚ) : List ℚ :=
  specAvgGo [] (xs.zip ys)

/-- Per-point independent trailing-window means with the 3-hour boundary
included, exactly as the claim reads. -/
def specAvgGoIncl (seen : List (ℤ × ℚ)) : List (ℤ × ℚ) → List ℚ
  | [] => []
  | (x, y) :: rest =>
    meanOf (trailWinIncl (seen ++ [(x, y)]) x) :: specAvgGoIncl (seen ++ [(x, y)]) rest

/-- The claim's reading of the windowed-average pass (boundary included). -/
def specRunningAvgIncl (xs : List ℤ) (ys : List ℚ) : List ℚ :=
  specAvgGoIncl [] (xs.zip ys)

/-- Python truthiness of a stored sample value: `None` and `0` are falsy. -/
def falsyQ : Option ℚ → Bool
  | none => true
  | some v => decide (v = 0)

/-- Every download sample of the record that feeds `med_down` (speedtest,
mlab, fastcom) is falsy or the source is absent. -/
def recDownsFalsy (r : DbRec) : Bool :=
  (match r.data.speedtest with | some st => falsyQ st.1 | none => true) &&
  (match r.data.mlab with | some ml => falsyQ ml.1 | none => true) &&
  (match r.data.fastcom with | some ft => falsyQ ft.1 | none => true)

/-- Every element of the list is falsy. -/
def falsyList (l : List (Option ℚ)) : Prop :=
  ∀ v ∈ l, falsyQ v = true

/-- The download-sample contribution of an optional three-field result. -/
def downOf3 : Option (Option ℚ × Option ℚ × Option ℚ) → List (Option ℚ)
  | some st => [st.1]
  | none => []

/-- The download-sample contribution of an optional four-field result. -/
def downOf4 : Option (Option ℚ × Option ℚ × Option ℚ × Option ℚ) → List (Option ℚ)
  | some ml => [ml.1]
  | none => []

/-- The concrete history record exhibiting the median source mix-up: a run
where speedtest measured (10 down, 20 up, ping 5) and chromedl measured
30 down. -/
def c1rec : DbRec :=
  { data := { speedtest := some (some 10, some 20, some 5),
              mlab := none,
              fastcom := none,
              chromedl := some (some 30, none, none) },
    tweeted := false,
    timestamp := 0 }

/-- A zero-exit fast-cli outcome whose output has no numeric leading token. -/
def c2attempt : Attempt :=
  { returncode := 0, hasNaN := false, toks := [Tok.word "abc"] }

/-- Five invocations that all fail with a bad exit code. -/
def fbad : ℕ → Attempt :=
  fun _ => { returncode := 1, hasNaN := false, toks := [] }

/-- A first invocation with a bad exit code, then clean numeric output. -/
def fgood : ℕ → Attempt :=
  fun n => if n = 0 then { returncode := 1, hasNaN := false, toks := [] }
           else { returncode := 0, hasNaN := false, toks := [Tok.num 25] }

/-- A history whose only record carries a zero download sample. -/
def c10rec : DbRec :=
  { data := { speedtest := some (some 0, some 5, some 1),
              mlab := none, fastcom := none, chromedl := none },
    tweeted := false,
    timestamp := 0 }

/-- The scan loop of `tweet_due` answers the existence of a recent tweeted
record. -/
theorem tweet_due_eq (hist : List DbRec) (now m : ℤ) :
    tweet_due hist now m =
      !hist.any (fun r => r.tweeted && decide (r.timestamp > now - m)) := by
  induction hist with
  | nil => simp [tweet_due]
  | cons r rest ih =>
    rw [tweet_due, List.any_cons]
    by_cases h : (r.tweeted && decide (r.timestamp > now - m)) = true
    · simp [h]
    · simp only [Bool.not_eq_true] at h
      simp [h, ih]

/-- C5: `tweet_due` returns false iff the loaded history holds a record with
`tweeted = true` whose timestamp is newer than `now - max_age_secs`. -/
theorem tweet_due_false_iff (hist : List DbRec) (now max_age_secs : ℤ) :
    tweet_due hist now max_age_secs = false ↔
      ∃ r ∈ hist, r.tweeted = true ∧ r.timestamp > now - max_age_secs := by
  rw [tweet_due_eq]
  simp [List.any_eq_true]

/-- The scan loop of `should_mlabndt` answers the existence of a recent
record holding mlab data. -/
theorem should_mlabndt_eq (hist : List DbRec) (now m : ℤ) :
    should_mlabndt hist now m =
      !hist.any (fun r => r.data.mlab.isSome && decide (r.timestamp > now - m)) := by
  induction hist with
  | nil => simp [should_mlabndt]
  | cons r rest ih =>
    rw [should_mlabndt, List.any_cons]
    by_cases h : (r.data.mlab.isSome && decide (r.timestamp > now - m)) = true
    · simp [h]
    · simp only [Bool.not_eq_true] at h
      simp [h, ih]

/-- C6: the M-Lab NDT test is skipped (the external client not invoked) iff
some history record contains mlab data and is newer than one hour before now;
equivalently, `should_mlabndt (60*60)` is true iff no such record exists. -/
theorem run_mlabndt_throttle (hist : List DbRec) (now : ℤ) (ext : MlabOutput) :
    ((run_mlabndt hist now ext).2 = false ↔
      ∃ r ∈ hist, r.data.mlab.isSome = true ∧ r.timestamp > now - 60 * 60) ∧
    (should_mlabndt hist now (60 * 60) = true ↔
      ¬∃ r ∈ hist, r.data.mlab.isSome = true ∧ r.timestamp > now - 60 * 60) := by
  have hs : should_mlabndt hist now (60 * 60) = false ↔
      ∃ r ∈ hist, r.data.mlab.isSome = true ∧ r.timestamp > now - 60 * 60 := by
    rw [should_mlabndt_eq]
    simp [List.any_eq_true]
  constructor
  · rw [← hs]
    unfold run_mlabndt
    cases h : should_mlabndt hist now (60 * 60) with
    | false => simp [h]
    | true =>
      simp only [h, Bool.not_true]
      by_cases he : ext.returncode ≠ 0 <;> simp [he]
  · rw [← hs]
    cases should_mlabndt hist now (60 * 60) <;> simp

/-- C9: a summary is posted iff `--dry_run` is unset, `--only_test` is unset,
and either `--force_tweet` is set or `tweet_due` holds for the 8-hour
threshold; with `--dry_run` set the chart is generated and nothing is posted,
whatever the other flags. -/
theorem post_iff (args : Args) (hist : List DbRec) (d : RunData) (now : ℤ) :
    (MainAct.post ∈ main_trace args hist d now ↔
      args.dry_run = false ∧ args.only_test = false ∧
        (args.force_tweet = true ∨ tweet_due hist now (8 * 60 * 60) = true)) ∧
    (MainAct.post ∉ main_trace { args with dry_run := true } hist d now ∧
      MainAct.generateChart ∈ main_trace { args with dry_run := true } hist d now) := by
  obtain ⟨ft, ot, st, dr⟩ := args
  cases htd : tweet_due hist now 28800 <;>
    cases hne : d.nonempty <;>
      cases ft <;> cases ot <;> cases st <;> cases dr <;>
        simp [main_trace, do_tweet, htd, hne]

/-- C8: one run of `main` only ever appends to the store: the old contents
stay a prefix, at most one row is added, and exactly the `save_data` row
`(data, tweeted, timestamp)` is added when tests ran and returned data. -/
theorem main_db_append_only (args : Args) (db hist : List DbRec) (d : RunData) (now : ℤ) :
    main_db args db hist d now =
      (if args.skip_test = false ∧ d.nonempty = true
        then save_data db d (do_tweet args hist now) now
        else db) ∧
    (∃ t, main_db args db hist d now = db ++ t ∧ t.length ≤ 1) := by
  have h1 : main_db args db hist d now =
      (if args.skip_test = false ∧ d.nonempty = true
        then save_data db d (do_tweet args hist now) now
        else db) := by
    obtain ⟨ft, ot, st, dr⟩ := args
    cases htd : do_tweet ⟨ft, ot, st, dr⟩ hist now <;>
      cases hne : d.nonempty <;>
        cases st <;> cases dr <;>
          simp [main_db, main_trace, insertedRecs, save_data, htd, hne]
  refine ⟨h1, ?_⟩
  rw [h1]
  by_cases hc : args.skip_test = false ∧ d.nonempty = true
  · exact ⟨_, by rw [if_pos hc, save_data], by simp⟩
  · exact ⟨[], by rw [if_neg hc]; simp, by simp⟩

/-- A line that `ooklaNoParse` rejects leaves the ookla fold state unchanged. -/
theorem ooklaLine_id (st : ℚ × ℚ × ℚ) (line : List Tok)
    (h : ooklaNoParse line = true) : ooklaLine st line = st := by
  match line with
  | [] => rfl
  | [_] => rfl
  | [_, _] => rfl
  | _ :: _ :: _ :: _ :: _ => rfl
  | [ty, val, u] =>
    rw [ooklaLine]
    rcases hv : floatOfTok val with _ | q
    · by_cases h1 : ty = Tok.word "Download:"
      · simp [h1, hv]
      · by_cases h2 : ty = Tok.word "Upload:"
        · simp [h1, h2, hv]
        · by_cases h3 : ty = Tok.word "Ping:"
          · simp [h1, h2, h3, hv]
          · simp [h1, h2, h3]
    · have hs : (floatOfTok val).isSome = true := by rw [hv]; rfl
      simp only [ooklaNoParse, hs, Bool.and_true, Bool.not_eq_true',
        Bool.or_eq_false_iff, decide_eq_false_iff_not] at h
      obtain ⟨⟨h1, h2⟩, h3⟩ := h
      rw [if_neg h1, if_neg h2, if_neg h3]

/-- C2 counterexample: with exit code zero and output missing the expected
tokens, `run_ookla` returns the `(-1, -1, -1)` sentinel rather than no data,
and `run_fastcom` raises rather than returning no data. -/
theorem unparseable_zero_exit_cex :
    run_ookla 0 [[Tok.word "garbage"]] = some (-1, -1, -1) ∧
    run_ookla 0 [[Tok.word "garbage"]] ≠ none ∧
    run_fastcom (fun _ => c2attempt) = Except.error "ValueError" := by
  refine ⟨rfl, by simp [run_ookla], rfl⟩

/-- C2 amended: on a zero exit code, `run_ookla` returns the sentinel tuple
`(-1, -1, -1)` (not `None`) when no output line parses as a
Download/Upload/Ping value, and `run_fastcom` raises an uncaught exception
(not `None`) when the first attempt passes the exit-code and NaN checks but
its output has no leading numeric token. -/
theorem unparseable_zero_exit_amended :
    (∀ lines : List (List Tok), (∀ l ∈ lines, ooklaNoParse l = true) →
      run_ookla 0 lines = some (-1, -1, -1)) ∧
    (∀ f : ℕ → Attempt, (f 0).returncode = 0 → (f 0).hasNaN = false →
      headFloat (f 0) = none → ∃ e, run_fastcom f = Except.error e) := by
  constructor
  · intro lines h
    rw [run_ookla, if_neg (by simp)]
    congr 1
    induction lines with
    | nil => rfl
    | cons l rest ih =>
      rw [List.foldl_cons, ooklaLine_id _ _ (h l (List.mem_cons_self l rest))]
      exact ih (fun l' hl' => h l' (List.mem_cons_of_mem l hl'))
  · intro f h0 hn hh
    rw [run_fastcom, fastcomLoop]
    rw [if_neg (by simp [h0]), if_neg (by simp [hn])]
    rcases ht : (f 0).toks with _ | ⟨v, rest⟩
    · refine ⟨"IndexError", ?_⟩
      simp only [fastcomParse, ht]
    · rw [headFloat, ht] at hh
      have hf : floatOfTok v = none := by simpa using hh
      refine ⟨"ValueError", ?_⟩
      simp only [fastcomParse, ht, hf]

/-- The retry counter bounds the number of `fast-cli` invocations. -/
theorem fastcomCalls_le (f : ℕ → Attempt) : ∀ t i, fastcomCalls f i t ≤ t := by
  intro t
  induction t with
  | zero => intro i; simp [fastcomCalls]
  | succ t ih =>
    intro i
    rw [fastcomCalls]
    by_cases h1 : (f i).returncode ≠ 0
    · rw [if_pos h1]
      have := ih (i + 1)
      omega
    · rw [if_neg h1]
      by_cases h2 : (f i).hasNaN = true
      · rw [if_pos h2]
        have := ih (i + 1)
        omega
      · rw [if_neg h2]
        omega

/-- When the first `t` attempts all fail a check, the loop returns no data. -/
theorem fastcomLoop_all_bad (f : ℕ → Attempt) :
    ∀ t i, (∀ j, j < t → fastcomGood (f (i + j)) = false) →
      fastcomLoop f i t = Except.ok none := by
  intro t
  induction t with
  | zero => intro i _; rfl
  | succ t ih =>
    intro i h
    have h0 := h 0 (Nat.succ_pos t)
    rw [fastcomGood, Bool.and_eq_false_iff] at h0
    have hrec : ∀ j, j < t → fastcomGood (f (i + 1 + j)) = false := by
      intro j hj
      have := h (j + 1) (Nat.succ_lt_succ hj)
      rwa [Nat.add_comm j 1, ← Nat.add_assoc] at this
    rw [fastcomLoop]
    rcases h0 with h0 | h0
    · rw [if_pos (by simp [decide_eq_false_iff_not] at h0 ⊢; exact h0)]
      exact ih (i + 1) hrec
    · by_cases hrc : (f i).returncode ≠ 0
      · rw [if_pos hrc]
        exact ih (i + 1) hrec
      · rw [if_neg hrc, if_pos (by simpa using h0)]
        exact ih (i + 1) hrec

/-- The loop returns the parsed value of the first passing attempt. -/
theorem fastcomLoop_first_good (f : ℕ → Attempt) :
    ∀ t i k q, k < t → (∀ j, j < k → fastcomGood (f (i + j)) = false) →
      fastcomGood (f (i + k)) = true → headFloat (f (i + k)) = some q →
      fastcomLoop f i t = Except.ok (some (q, none, none)) := by
  intro t
  induction t with
  | zero => intro i k q hk; omega
  | succ t ih =>
    intro i k q hk hbad hg hq
    rw [fastcomLoop]
    match k, hk with
    | 0, _ =>
      rw [Nat.add_zero] at hg hq
      rw [fastcomGood, Bool.and_eq_true, decide_eq_true_eq, Bool.not_eq_true'] at hg
      rw [if_neg (by simp [hg.1]), if_neg (by simp [hg.2])]
      rcases ht : (f i).toks with _ | ⟨v, rest⟩
      · rw [headFloat, ht] at hq
        simp at hq
      · rw [headFloat, ht] at hq
        have hf : floatOfTok v = some q := by simpa using hq
        simp only [fastcomParse, ht, hf]
    | k' + 1, _ =>
      have h0 := hbad 0 (Nat.succ_pos k')
      rw [Nat.add_zero, fastcomGood, Bool.and_eq_false_iff] at h0
      have hshift : ∀ j, j < k' → fastcomGood (f (i + 1 + j)) = false := by
        intro j hj
        have := hbad (j + 1) (Nat.succ_lt_succ hj)
        rwa [Nat.add_comm j 1, ← Nat.add_assoc] at this
      have hg' : fastcomGood (f (i + 1 + k')) = true := by
        rw [(by omega : i + 1 + k' = i + (k' + 1))]
        exact hg
      have hq' : headFloat (f (i + 1 + k')) = some q := by
        rw [(by omega : i + 1 + k' = i + (k' + 1))]
        exact hq
      have step : fastcomLoop f (i + 1) t = Except.ok (some (q, none, none)) :=
        ih (i + 1) k' q (by omega) hshift hg' hq'
      rcases h0 with h0 | h0
      · rw [if_pos (by simp [decide_eq_false_iff_not] at h0 ⊢; exact h0)]
        exact step
      · by_cases hrc : (f i).returncode ≠ 0
        · rw [if_pos hrc]
          exact step
        · rw [if_neg hrc, if_pos (by simpa using h0)]
          exact step

/-- C7: `run_fastcom` makes at most 5 subprocess invocations; it returns the
parsed `(download, None, None)` of the first attempt that has exit code zero
and no `NaN bps` sentinel, and returns no data once all 5 attempts fail one of
those checks. -/
theorem run_fastcom_retries :
    (∀ f : ℕ → Attempt, run_fastcom_calls f ≤ 5) ∧
    (∀ f : ℕ → Attempt, (∀ i, i < 5 → fastcomGood (f i) = false) →
      run_fastcom f = Except.ok none) ∧
    (∀ (f : ℕ → Attempt) (i : ℕ) (q : ℚ), i < 5 →
      (∀ j, j < i → fastcomGood (f j) = false) → fastcomGood (f i) = true →
      headFloat (f i) = some q →
      run_fastcom f = Except.ok (some (q, none, none))) := by
  refine ⟨fun f => fastcomCalls_le f 5 0, fun f h => ?_, fun f i q hi hbad hg hq => ?_⟩
  · exact fastcomLoop_all_bad f 5 0 (fun j hj => by simpa using h j hj)
  · exact fastcomLoop_first_good f 5 0 i q hi
      (fun j hj => by simpa using hbad j hj)
      (by simpa using hg) (by simpa using hq)

/-- C7 witness: five bad exit codes yield no data within 5 invocations, and a
bad first attempt followed by clean numeric output yields the parsed value. -/
theorem run_fastcom_retries_witness :
    run_fastcom_calls fbad ≤ 5 ∧
    ((∀ i, i < 5 → fastcomGood (fbad i) = false) ∧
      run_fastcom fbad = Except.ok none) ∧
    ((1 < 5 ∧ (∀ j, j < 1 → fastcomGood (fgood j) = false) ∧
        fastcomGood (fgood 1) = true ∧ headFloat (fgood 1) = some 25) ∧
      run_fastcom fgood = Except.ok (some (25, none, none))) :=
  ⟨run_fastcom_retries.1 fbad,
   ⟨by decide, run_fastcom_retries.2.1 fbad (by decide)⟩,
   ⟨⟨by decide, by decide, by decide, by decide⟩,
    run_fastcom_retries.2.2 fgood 1 25 (by decide) (by decide) (by decide) (by decide)⟩⟩

/-- C2 witness: the amended statement instantiated at concrete outputs. -/
theorem unparseable_zero_exit_amended_witness :
    ((∀ l ∈ [[Tok.word "garbage"]], ooklaNoParse l = true) ∧
      run_ookla 0 [[Tok.word "garbage"]] = some (-1, -1, -1)) ∧
    ((((fun _ => c2attempt) 0).returncode = 0 ∧
        ((fun _ => c2attempt) 0).hasNaN = false ∧
        headFloat ((fun _ => c2attempt) 0) = none) ∧
      ∃ e, run_fastcom (fun _ => c2attempt) = Except.error e) :=
  ⟨⟨by decide, unparseable_zero_exit_amended.1 [[Tok.word "garbage"]] (by decide)⟩,
   ⟨⟨by decide, by decide, by decide⟩,
    unparseable_zero_exit_amended.2 (fun _ => c2attempt)
      (by decide) (by decide) (by decide)⟩⟩

/-- C4: over aggregate samples at hour offsets 0, 1, 4 with values 10, 20, 30,
the windowed-average pass yields 10, 15, 30: the third point's window holds
neither earlier sample (4h and 3h old). -/
theorem runningAvg_example :
    runningAvg [0, 3600, 14400] [10, 20, 30] = [10, 15, 30] := by
  norm_num [runningAvg, winAvgGo, hours3]

/-- C1: on a history whose one record holds speedtest (10 down, 20 up) and
chromedl (30 down), `generate_graph` reports median download 10 — the
chromedl series ys3 is left out of `ys[0]+ys[1]+ys[2]` — and median upload
25 — `ys[3]+ys[4]` mixes the chromedl download series into the uploads —
while the spec's medians (downloads across all four sources, uploads across
speedtest and mlab) are 20 and 20. -/
theorem generate_graph_median_mix :
    generate_graph [c1rec] = Except.ok (10, 25) ∧
    spec_med_down [c1rec] = some 20 ∧
    spec_med_up [c1rec] = some 20 ∧
    generate_graph [c1rec] ≠ Except.ok (20, 20) := by
  refine ⟨?_, ?_, ?_, ?_⟩
  · norm_num [generate_graph, collectHist, collectRec, doSpeedtest, doMlab, doFastcom,
      doChromedl, addSample, emptyCollected, c1rec, median, sortQ, insertSorted,
      truthyVals, orRaise, runningAvg, winAvgGo, hours3, bind, Except.bind, pure, Except.pure]
  · norm_num [spec_med_down, recDowns, c1rec, median, sortQ, insertSorted]
  · norm_num [spec_med_up, recUps, c1rec, median, sortQ, insertSorted]
  · norm_num [generate_graph, collectHist, collectRec, doSpeedtest, doMlab, doFastcom,
      doChromedl, addSample, emptyCollected, c1rec, median, sortQ, insertSorted,
      truthyVals, orRaise, runningAvg, winAvgGo, hours3, bind, Except.bind, pure, Except.pure]

/-- C3 counterexample: with two aggregate samples exactly 3 hours apart, the
code's second window mean is 100 — the sample exactly 3 hours older is
dropped by the strict comparison — while the claimed boundary-inclusive
window mean is 55. -/
theorem runningAvg_boundary_cex :
    runningAvg [0, 10800] [10, 100] = [10, 100] ∧
    specRunningAvgIncl [0, 10800] [10, 100] = [10, 55] ∧
    runningAvg [0, 10800] [10, 100] ≠ specRunningAvgIncl [0, 10800] [10, 100] := by
  refine ⟨?_, ?_, ?_⟩
  · norm_num [runningAvg, winAvgGo, hours3]
  · norm_num [specRunningAvgIncl, specAvgGoIncl, trailWinIncl, meanOf, hours3]
  · norm_num [runningAvg, winAvgGo, specRunningAvgIncl, specAvgGoIncl, trailWinIncl,
      meanOf, hours3]

/-- The position components of a zipped series form a sublist of `xs`. -/
theorem map_fst_zip_sublist (xs : List ℤ) (ys : List ℚ) :
    ((xs.zip ys).map Prod.fst).Sublist xs := by
  induction xs generalizing ys with
  | nil => simp
  | cons x xs ih =>
    cases ys with
    | nil => simp
    | cons y ys =>
      simpa using List.Sublist.cons₂ x (ih ys)

/-- The incremental window of the running-average loop agrees with the
independently recomputed trailing window: whenever the retained window is a
filtered view of all trailing points that loses only points already outside
every later window, the two computations coincide. -/
theorem winAvgGo_eq_specAvgGo (pts : List (ℤ × ℚ)) :
    ∀ (seen : List (ℤ × ℚ)) (p : ℤ × ℚ → Bool),
      (pts.map Prod.fst).Sorted (· ≤ ·) →
      (∀ e ∈ seen, ∀ c ∈ pts, decide (c.1 - e.1 < hours3) = true → p e = true) →
      winAvgGo (seen.filter p) pts = specAvgGo seen pts := by
  induction pts with
  | nil => intro seen p _ _; rfl
  | cons hd rest ih =>
    obtain ⟨x, y⟩ := hd
    intro seen p hsort hp
    have hsort' : (rest.map Prod.fst).Sorted (· ≤ ·) :=
      (List.sorted_cons.1 (by simpa using hsort)).2
    have hx : ∀ c ∈ rest, x ≤ c.1 := by
      intro c hc
      exact (List.sorted_cons.1 (by simpa using hsort)).1 c.1 (List.mem_map_of_mem Prod.fst hc)
    have hwin : (seen.filter p ++ [(x, y)]).filter (fun e => decide (x - e.1 < hours3)) =
        (seen ++ [(x, y)]).filter (fun e => decide (x - e.1 < hours3)) := by
      rw [List.filter_append, List.filter_append, List.filter_filter]
      congr 1
      apply List.filter_congr
      intro e he
      cases hfx : decide (x - e.1 < hours3) with
      | false => simp
      | true =>
        rw [hp e he (x, y) (List.mem_cons_self _ _) hfx]
        rfl
    have happ : ∀ e ∈ seen ++ [(x, y)], ∀ c ∈ rest,
        decide (c.1 - e.1 < hours3) = true → decide (x - e.1 < hours3) = true := by
      intro e _ c hc hlt
      have hxc : x ≤ c.1 := hx c hc
      simp only [hours3, decide_eq_true_eq] at hlt ⊢
      omega
    simp only [winAvgGo, specAvgGo, trailWin, meanOf]
    rw [hwin]
    exact congrArg _ (ih (seen ++ [(x, y)]) _ hsort' happ)

/-- C3 amended: for an aggregate series with nondecreasing timestamps, the
running-average pass replaces every sample with the mean of all trailing
samples strictly newer than 3 hours before it, each point computed
independently — the 3-hour boundary is excluded: a sample exactly 3 hours
older leaves the window. -/
theorem runningAvg_eq_spec (xs : List ℤ) (ys : List ℚ)
    (hs : xs.Sorted (· ≤ ·)) :
    runningAvg xs ys = specRunningAvg xs ys := by
  rw [runningAvg, specRunningAvg]
  have h1 : ((xs.zip ys).map Prod.fst).Sorted (· ≤ ·) :=
    List.Pairwise.sublist (map_fst_zip_sublist xs ys) hs
  have h2 := winAvgGo_eq_specAvgGo (xs.zip ys) [] (fun _ => true) h1
    (by intro e he; simp at he)
  simpa using h2

/-- C3 witness: the amended statement instantiated on a sorted series. -/
theorem runningAvg_eq_spec_witness :
    List.Sorted (· ≤ ·) [(0 : ℤ), 3600, 7200] ∧
    runningAvg [0, 3600, 7200] [4, 8, 6] = specRunningAvg [0, 3600, 7200] [4, 8, 6] :=
  ⟨by decide, runningAvg_eq_spec [0, 3600, 7200] [4, 8, 6] (by decide)⟩

/-- The speedtest block appends its download sample to ys0 and leaves ys1,
ys2 untouched. -/
theorem doSpeedtest_ok (t : Tally) (c : Collected)
    (o : Option (Option ℚ × Option ℚ × Option ℚ)) (t' : Tally) (c' : Collected)
    (h : doSpeedtest t c o = Except.ok (t', c')) :
    c'.ys0 = c.ys0 ++ downOf3 o ∧
    c'.ys1 = c.ys1 ∧ c'.ys2 = c.ys2 := by
  match o with
  | none =>
    rw [doSpeedtest] at h
    cases h
    simp [downOf3]
  | some st =>
    rcases hd : st.1 with _ | d
    · rw [doSpeedtest] at h
      simp [hd, addSample, bind, Except.bind] at h
    · rcases hu : st.2.1 with _ | u
      · rw [doSpeedtest] at h
        simp [hd, hu, addSample, bind, Except.bind] at h
      · rw [doSpeedtest] at h
        simp only [hd, hu, addSample, bind, Except.bind, Except.ok.injEq,
          Prod.mk.injEq] at h
        obtain ⟨-, hc⟩ := h
        subst hc
        simp [downOf3, hd]

/-- The mlab block appends its download sample to ys1 and leaves ys0, ys2
untouched. -/
theorem doMlab_ok (t : Tally) (c : Collected)
    (o : Option (Option ℚ × Option ℚ × Option ℚ × Option ℚ)) (t' : Tally) (c' : Collected)
    (h : doMlab t c o = Except.ok (t', c')) :
    c'.ys1 = c.ys1 ++ downOf4 o ∧
    c'.ys0 = c.ys0 ∧ c'.ys2 = c.ys2 := by
  match o with
  | none =>
    rw [doMlab] at h
    cases h
    simp [downOf4]
  | some ml =>
    rcases hd : ml.1 with _ | d
    · rw [doMlab] at h
      simp [hd, addSample, bind, Except.bind] at h
    · rcases hu : ml.2.1 with _ | u
      · rw [doMlab] at h
        simp [hd, hu, addSample, bind, Except.bind] at h
      · rw [doMlab] at h
        simp only [hd, hu, addSample, bind, Except.bind, Except.ok.injEq,
          Prod.mk.injEq] at h
        obtain ⟨-, hc⟩ := h
        subst hc
        simp [downOf4, hd]

/-- The fastcom block appends its download sample to ys2 and leaves ys0, ys1
untouched. -/
theorem doFastcom_ok (t : Tally) (c : Collected)
    (o : Option (Option ℚ × Option ℚ × Option ℚ)) (t' : Tally) (c' : Collected)
    (h : doFastcom t c o = Except.ok (t', c')) :
    c'.ys2 = c.ys2 ++ downOf3 o ∧
    c'.ys0 = c.ys0 ∧ c'.ys1 = c.ys1 := by
  match o with
  | none =>
    rw [doFastcom] at h
    cases h
    simp [downOf3]
  | some ft =>
    rcases hd : ft.1 with _ | d
    · rw [doFastcom] at h
      simp [hd, addSample, bind, Except.bind] at h
    · rw [doFastcom] at h
      simp only [hd, addSample, bind, Except.bind, Except.ok.injEq,
        Prod.mk.injEq] at h
      obtain ⟨-, hc⟩ := h
      subst hc
      simp [downOf3, hd]

/-- The chromedl block leaves ys0, ys1, ys2 untouched. -/
theorem doChromedl_ok (t : Tally) (c : Collected)
    (o : Option (Option ℚ × Option ℚ × Option ℚ)) (t' : Tally) (c' : Collected)
    (h : doChromedl t c o = Except.ok (t', c')) :
    c'.ys0 = c.ys0 ∧ c'.ys1 = c.ys1 ∧ c'.ys2 = c.ys2 := by
  match o with
  | none =>
    rw [doChromedl] at h
    cases h
    simp
  | some cd =>
    rcases hd : cd.1 with _ | d
    · rw [doChromedl] at h
      simp [hd, addSample, bind, Except.bind] at h
    · rw [doChromedl] at h
      simp only [hd, addSample, bind, Except.bind, Except.ok.injEq,
        Prod.mk.injEq] at h
      obtain ⟨-, hc⟩ := h
      subst hc
      simp

/-- One successful history-loop iteration appends exactly the record's
download samples to the three series behind `med_down`. -/
theorem collectRec_ok (c : Collected) (r : DbRec) (c' : Collected)
    (h : collectRec c r = Except.ok c') :
    c'.ys0 = c.ys0 ++ downOf3 r.data.speedtest ∧
    c'.ys1 = c.ys1 ++ downOf4 r.data.mlab ∧
    c'.ys2 = c.ys2 ++ downOf3 r.data.fastcom := by
  rw [collectRec] at h
  rcases h1 : doSpeedtest { totaldown := 0, totalup := 0, downs := 0, ups := 0 } c
      r.data.speedtest with e | ⟨t1, c1⟩
  · simp [h1, bind, Except.bind] at h
  rcases h2 : doMlab t1 c1 r.data.mlab with e | ⟨t2, c2⟩
  · simp [h1, h2, bind, Except.bind] at h
  rcases h3 : doFastcom t2 c2 r.data.fastcom with e | ⟨t3, c3⟩
  · simp [h1, h2, h3, bind, Except.bind] at h
  rcases h4 : doChromedl t3 c3 r.data.chromedl with e | ⟨t4, c4⟩
  · simp [h1, h2, h3, h4, bind, Except.bind] at h
  simp only [h1, h2, h3, h4, bind, Except.bind, Except.ok.injEq] at h
  obtain ⟨e01, e11, e21⟩ := doSpeedtest_ok _ _ _ _ _ h1
  obtain ⟨e12, e02, e22⟩ := doMlab_ok _ _ _ _ _ h2
  obtain ⟨e23, e03, e13⟩ := doFastcom_ok _ _ _ _ _ h3
  obtain ⟨e04, e14, e24⟩ := doChromedl_ok _ _ _ _ _ h4
  have hys : c'.ys0 = c4.ys0 ∧ c'.ys1 = c4.ys1 ∧ c'.ys2 = c4.ys2 := by
    subst h
    by_cases hdn : t4.downs ≠ 0 <;> by_cases hup : t4.ups ≠ 0 <;>
      simp [hdn, hup]
  refine ⟨?_, ?_, ?_⟩
  · rw [hys.1, e04, e03, e02, e01]
  · rw [hys.2.1, e14, e13, e12, e11]
  · rw [hys.2.2, e24, e23, e22, e21]

/-- If every record in the history carries only falsy (null or zero) download
samples for speedtest, mlab, and fastcom, then a successful history loop keeps
the three `med_down` series entirely falsy. -/
theorem collectHist_falsy (hist : List DbRec) :
    ∀ c0 : Collected, (∀ r ∈ hist, recDownsFalsy r = true) →
      falsyList c0.ys0 → falsyList c0.ys1 → falsyList c0.ys2 →
      ∀ c, hist.foldlM collectRec c0 = Except.ok c →
        falsyList c.ys0 ∧ falsyList c.ys1 ∧ falsyList c.ys2 := by
  induction hist with
  | nil =>
    intro c0 _ h0 h1 h2 c h
    simp only [List.foldlM_nil, pure, Except.pure, Except.ok.injEq] at h
    subst h
    exact ⟨h0, h1, h2⟩
  | cons r rest ih =>
    intro c0 hall h0 h1 h2 c h
    rw [List.foldlM_cons] at h
    rcases hr : collectRec c0 r with e | c1
    · rw [hr] at h
      simp [bind, Except.bind] at h
    · rw [hr] at h
      simp only [bind, Except.bind] at h
      obtain ⟨e0, e1, e2⟩ := collectRec_ok c0 r c1 hr
      have hrf := hall r (List.mem_cons_self r rest)
      rw [recDownsFalsy, Bool.and_eq_true, Bool.and_eq_true] at hrf
      obtain ⟨⟨hA, hB⟩, hC⟩ := hrf
      have f0 : falsyList c1.ys0 := by
        rw [e0]
        intro v hv
        rcases List.mem_append.1 hv with hv | hv
        · exact h0 v hv
        · rcases hsp : r.data.speedtest with _ | st
          · rw [hsp, downOf3] at hv
            simp at hv
          · rw [hsp, downOf3] at hv
            rw [List.mem_singleton] at hv
            rw [hsp] at hA
            rw [hv]
            exact hA
      have f1 : falsyList c1.ys1 := by
        rw [e1]
        intro v hv
        rcases List.mem_append.1 hv with hv | hv
        · exact h1 v hv
        · rcases hsp : r.data.mlab with _ | ml
          · rw [hsp, downOf4] at hv
            simp at hv
          · rw [hsp, downOf4] at hv
            rw [List.mem_singleton] at hv
            rw [hsp] at hB
            rw [hv]
            exact hB
      have f2 : falsyList c1.ys2 := by
        rw [e2]
        intro v hv
        rcases List.mem_append.1 hv with hv | hv
        · exact h2 v hv
        · rcases hsp : r.data.fastcom with _ | ft
          · rw [hsp, downOf3] at hv
            simp at hv
          · rw [hsp, downOf3] at hv
            rw [List.mem_singleton] at hv
            rw [hsp] at hC
            rw [hv]
            exact hC
      exact ih c1 (fun r' hr' => hall r' (List.mem_cons_of_mem r hr')) f0 f1 f2 c h

/-- A falsy list filters to nothing. -/
theorem truthyVals_falsy (l : List (Option ℚ)) (h : falsyList l) :
    truthyVals l = [] := by
  rw [truthyVals, List.filterMap_eq_nil]
  intro o ho
  have := h o ho
  match o with
  | none => rfl
  | some v =>
    rw [falsyQ, decide_eq_true_eq] at this
    simp [this]

/-- C10: the median filter drops a zero sample exactly as it drops a null —
membership in the filtered list is membership of a non-null, non-zero
sample — and on a trailing history whose speedtest, mlab, and fastcom
download samples are all null or zero, `generate_graph` raises instead of
returning, so a run due to tweet with no gathered download data fails before
posting. -/
theorem generate_graph_all_falsy (hist : List DbRec)
    (h : ∀ r ∈ hist, recDownsFalsy r = true) :
    (∃ e, generate_graph hist = Except.error e) ∧
    (∀ (l : List (Option ℚ)) (v : ℚ), v ∈ truthyVals l ↔ (some v ∈ l ∧ v ≠ 0)) := by
  constructor
  · rcases hc : collectHist hist with e | c
    · exact ⟨e, by simp [generate_graph, hc, bind, Except.bind]⟩
    · obtain ⟨f0, f1, f2⟩ := collectHist_falsy hist emptyCollected h
        (fun v hv => by simp [emptyCollected] at hv)
        (fun v hv => by simp [emptyCollected] at hv)
        (fun v hv => by simp [emptyCollected] at hv) c hc
      have hemp : truthyVals (c.ys0 ++ (c.ys1 ++ c.ys2)) = [] := by
        apply truthyVals_falsy
        intro v hv
        rcases List.mem_append.1 hv with hv | hv
        · exact f0 v hv
        · rcases List.mem_append.1 hv with hv | hv
          · exact f1 v hv
          · exact f2 v hv
      exact ⟨"StatisticsError",
        by simp [generate_graph, hc, bind, Except.bind, hemp, median, sortQ, orRaise]⟩
  · intro l v
    constructor
    · intro hv
      rw [truthyVals] at hv
      obtain ⟨o, ho, he⟩ := List.mem_filterMap.1 hv
      match o with
      | none => simp at he
      | some w =>
        by_cases hw : w = 0
        · rw [hw] at he
          simp at he
        · simp only [if_neg hw, Option.some.injEq] at he
          subst he
          exact ⟨ho, hw⟩
    · intro hv
      rw [truthyVals]
      exact List.mem_filterMap.2 ⟨some v, hv.1, by simp [hv.2]⟩

/-- C10 witness: a history whose only download sample is exactly zero makes
`generate_graph` raise. -/
theorem generate_graph_all_falsy_witness :
    (∀ r ∈ [c10rec], recDownsFalsy r = true) ∧
    (∃ e, generate_graph [c10rec] = Except.error e) :=
  ⟨by decide, (generate_graph_all_falsy [c10rec] (by decide)).1⟩
